import Mathlib

/-!
# Verification of the news knowledge-graph pipeline

Shallow embedding of the Python sources `Graph_Build.py`, `Tools_Retriever.py`
and `app.py` of the `python-news-knowledge-graph` repository, together with
proofs about the embedded definitions.

Text is modelled as `List Char` where character-level operations matter
(chunking, stripping) and as `String` where the value is opaque.
Machine-level effects (the Neo4j driver, the OpenAI embedder, `json.loads`)
are modelled as explicit state passing over a `GraphState` record and as
function parameters for the external services.
-/

namespace NewsKG

/-- Python `str.strip()` on a character list: drop leading and trailing
whitespace (`Graph_Build.py`, used in `chunk_text` line 23-24). -/
def pyStrip (l : List Char) : List Char :=
  ((l.dropWhile Char.isWhitespace).reverse.dropWhile Char.isWhitespace).reverse

/-- `chunk_text` (`Graph_Build.py` lines 14-26).

* `none` models a missing (`NaN`/`None`) input, caught by `pd.isna`.
* Python's `range(0, len(text), chunk_size - overlap)` raises `ValueError`
  when the step is zero (modelled by `Except.error ()`), yields no indices
  when the step is negative, and otherwise yields
  `0, s, 2s, …` with `⌈len/s⌉` elements, i.e. `List.range' 0 ((len+s-1)/s) s`.
* each window `text[i : i+chunk_size]` is stripped and appended only when
  nonempty after stripping. -/
def chunk_text (text : Option (List Char)) (chunk_size : Nat := 500)
    (overlap : Nat := 50) : Except Unit (List (List Char)) :=
  match text with
  | none => .ok []
  | some t =>
    if t = [] then .ok []
    else if chunk_size = overlap then .error ()
    else if chunk_size < overlap then .ok []
    else
      let s := chunk_size - overlap
      .ok ((((List.range' 0 ((t.length + s - 1) / s) s).map
              (fun i => pyStrip ((t.drop i).take chunk_size))).filter
           (fun c => !c.isEmpty)))

/-- `get_icon_for_category` (`app.py` lines 401-411): fixed dictionary lookup
with default `"📰"`. -/
def get_icon_for_category (category : String) : String :=
  if category = "정치" then "🏛️"
  else if category = "경제" then "💼"
  else if category = "사회" then "👥"
  else if category = "생활/문화" then "🎭"
  else if category = "IT/과학" then "💻"
  else if category = "세계" then "🌍"
  else "📰"

/-! ## Chunking: window decomposition and reconstruction -/

/-- The raw (unstripped) sliding windows of `chunk_text`, written recursively:
`n` windows, each `t.take chunk_size`, advancing by the stride `s`. -/
def windowsN (chunk_size s : Nat) : Nat → List Char → List (List Char)
  | 0, _ => []
  | n + 1, t => t.take chunk_size :: windowsN chunk_size s n (t.drop s)

/-- Remove from every fragment except the last its overlapping tail: the part
past the first `s` characters, which the next fragment reproduces. -/
def dropOverlapTails (s : Nat) : List (List Char) → List (List Char)
  | [] => []
  | [c] => [c]
  | c :: c' :: rest => c.take s :: dropOverlapTails s (c' :: rest)

/-- Concatenation of the fragments with overlapping tails removed
(the reconstruction described by the spec, with stride `s`). -/
def reconstruct (s : Nat) (chunks : List (List Char)) : List Char :=
  (dropOverlapTails s chunks).flatten

lemma map_eq_self_of_fix {α : Type} (l : List α) (f : α → α)
    (h : ∀ a ∈ l, f a = a) : l.map f = l := by
  induction l with
  | nil => rfl
  | cons a t ih =>
    simp only [List.map_cons, h a (List.mem_cons_self a t)]
    rw [ih fun x hx => h x (List.mem_cons_of_mem a hx)]

lemma range'_map_windows (cs s : Nat) :
    ∀ (n a : Nat) (t : List Char),
      (List.range' a n s).map (fun i => (t.drop i).take cs)
        = windowsN cs s n (t.drop a) := by
  intro n
  induction n with
  | zero => intro a t; rfl
  | succ n ih =>
    intro a t
    rw [List.range'_succ, List.map_cons, windowsN]
    refine congrArg₂ _ rfl ?_
    rw [ih (a + s) t, List.drop_drop]

lemma dropWhile_head_false (p : Char → Bool) :
    ∀ (l : List Char) (a : Char) (r : List Char),
      l.dropWhile p = a :: r → p a = false := by
  intro l
  induction l with
  | nil => intro a r h; simp [List.dropWhile] at h
  | cons b t ih =>
    intro a r h
    rw [List.dropWhile_cons] at h
    cases hb : p b with
    | true => rw [hb] at h; simp only [if_true] at h; exact ih a r h
    | false =>
      rw [hb] at h
      simp only [Bool.false_eq_true, if_false, List.cons.injEq] at h
      rw [← h.1]
      exact hb

lemma dropWhile_dropWhile (p : Char → Bool) (l : List Char) :
    (l.dropWhile p).dropWhile p = l.dropWhile p := by
  cases h : l.dropWhile p with
  | nil => rfl
  | cons a r =>
    rw [List.dropWhile_cons, dropWhile_head_false p l a r h]
    simp

lemma pyStrip_of_no_whitespace (l : List Char)
    (h : ∀ c ∈ l, c.isWhitespace = false) : pyStrip l = l := by
  have hdw : ∀ m : List Char, (∀ c ∈ m, c.isWhitespace = false) →
      m.dropWhile Char.isWhitespace = m := by
    intro m hm
    cases m with
    | nil => rfl
    | cons a t =>
      rw [List.dropWhile_cons, hm a (List.mem_cons_self a t)]
      simp
  unfold pyStrip
  rw [hdw l h, hdw l.reverse (fun c hc => h c (List.mem_reverse.mp hc)),
    List.reverse_reverse]

lemma dropWhile_strip_aux (p : Char → Bool) (l : List Char) :
    ((l.dropWhile p).reverse.dropWhile p).reverse.dropWhile p
      = ((l.dropWhile p).reverse.dropWhile p).reverse := by
  cases hrev : ((l.dropWhile p).reverse.dropWhile p).reverse with
  | nil => simp
  | cons b r =>
    have hpre : ((l.dropWhile p).reverse.dropWhile p).reverse <+: l.dropWhile p := by
      have hsuf : (l.dropWhile p).reverse.dropWhile p <:+ (l.dropWhile p).reverse :=
        List.dropWhile_suffix p
      have := List.reverse_prefix.mpr hsuf
      rwa [List.reverse_reverse] at this
    rw [hrev] at hpre
    obtain ⟨rest, hrest⟩ := hpre
    have hb : p b = false := by
      refine dropWhile_head_false p l b (r ++ rest) ?_
      rw [← hrest]
      rfl
    rw [List.dropWhile_cons, hb]
    simp

lemma pyStrip_idem (l : List Char) : pyStrip (pyStrip l) = pyStrip l := by
  unfold pyStrip
  rw [dropWhile_strip_aux Char.isWhitespace l, List.reverse_reverse,
    dropWhile_dropWhile]

/-- For a nonempty text and positive stride, `chunk_text` is the strip-and-filter
of the recursive window decomposition. -/
lemma chunk_text_eq_windows (t : List Char) (cs ov : Nat) (ht : t ≠ [])
    (hov : ov < cs) :
    chunk_text (some t) cs ov =
      .ok (((windowsN cs (cs - ov) ((t.length + (cs - ov) - 1) / (cs - ov)) t).map
              pyStrip).filter (fun c => !c.isEmpty)) := by
  have h1 : ¬ cs = ov := Nat.ne_of_gt hov
  have h2 : ¬ cs < ov := Nat.not_lt_of_gt hov
  simp only [chunk_text, if_neg ht, if_neg h1, if_neg h2]
  have := range'_map_windows cs (cs - ov) ((t.length + (cs - ov) - 1) / (cs - ov)) 0 t
  rw [List.drop_zero] at this
  rw [← this, List.map_map]
  rfl

/-- Reconstruction of the raw window decomposition: taking `⌈len/s⌉` windows
with `0 < s ≤ cs`, dropping the overlapping tails and concatenating gives the
text back. -/
lemma windowsN_reconstruct (cs s : Nat) (hs : 0 < s) (hsc : s ≤ cs) :
    ∀ (N : Nat) (t : List Char), t.length ≤ N →
      reconstruct s (windowsN cs s ((t.length + s - 1) / s) t) = t := by
  have hnil : reconstruct s (windowsN cs s ((([] : List Char).length + s - 1) / s) []) = [] := by
    have h0 : (([] : List Char).length + s - 1) / s = 0 := by
      simp only [List.length_nil, Nat.zero_add]
      exact Nat.div_eq_of_lt (by omega)
    rw [h0]
    rfl
  intro N
  induction N with
  | zero =>
    intro t hlen
    have ht : t = [] := List.length_eq_zero.mp (Nat.le_zero.mp hlen)
    subst ht
    exact hnil
  | succ N ih =>
    intro t hlen
    by_cases ht0 : t = []
    · subst ht0; exact hnil
    · have hpos : 0 < t.length := List.length_pos.mpr ht0
      by_cases hle : t.length ≤ s
      · have hone : (t.length + s - 1) / s = 1 := by
          refine Nat.div_eq_of_lt_le (by omega) (by omega)
        rw [hone]
        have htake : t.take cs = t := List.take_of_length_le (le_trans hle hsc)
        show reconstruct s [t.take cs] = t
        rw [htake]
        simp [reconstruct, dropOverlapTails]
      · push_neg at hle
        have hn : (t.length + s - 1) / s = (t.length - s + s - 1) / s + 1 := by
          have hm : t.length + s - 1 = (t.length - s + s - 1) + s := by omega
          rw [hm, Nat.add_div_right _ hs]
        have hdl : (t.drop s).length = t.length - s := List.length_drop s t
        have hrec : reconstruct s
            (windowsN cs s ((t.length - s + s - 1) / s) (t.drop s)) = t.drop s := by
          have := ih (t.drop s) (by omega)
          rwa [hdl] at this
        have hm1 : 1 ≤ (t.length - s + s - 1) / s :=
          (Nat.one_le_div_iff hs).mpr (by omega)
        obtain ⟨k, hk⟩ : ∃ k, (t.length - s + s - 1) / s = k + 1 :=
          ⟨(t.length - s + s - 1) / s - 1, by omega⟩
        rw [hk] at hrec
        calc reconstruct s (windowsN cs s ((t.length + s - 1) / s) t)
            = (t.take cs).take s ++ reconstruct s (windowsN cs s (k + 1) (t.drop s)) := by
              rw [hn, hk]; rfl
          _ = t.take s ++ t.drop s := by rw [List.take_take, Nat.min_eq_left hsc, hrec]
          _ = t := List.take_append_drop s t

/-- Every character of every raw window is a character of the text. -/
lemma windowsN_chars_subset (cs s : Nat) :
    ∀ (n : Nat) (t : List Char), ∀ w ∈ windowsN cs s n t, ∀ c ∈ w, c ∈ t := by
  intro n
  induction n with
  | zero => intro t w hw; simp [windowsN] at hw
  | succ n ih =>
    intro t w hw c hc
    rw [windowsN] at hw
    rcases List.mem_cons.mp hw with h | h
    · exact List.take_subset cs t (h ▸ hc)
    · exact List.drop_subset s t (ih (t.drop s) w h c hc)

/-- With `⌈len/s⌉` windows and a positive window size, no raw window is empty. -/
lemma windowsN_ne_nil (cs s : Nat) (hs : 0 < s) (hcs : 0 < cs) :
    ∀ (N : Nat) (t : List Char), t.length ≤ N →
      ∀ w ∈ windowsN cs s ((t.length + s - 1) / s) t, w ≠ [] := by
  have hnil : ∀ w ∈ windowsN cs s ((([] : List Char).length + s - 1) / s) [], w ≠ [] := by
    have h0 : (([] : List Char).length + s - 1) / s = 0 := by
      simp only [List.length_nil, Nat.zero_add]
      exact Nat.div_eq_of_lt (by omega)
    rw [h0]
    intro w hw
    simp [windowsN] at hw
  intro N
  induction N with
  | zero =>
    intro t hlen
    have ht : t = [] := List.length_eq_zero.mp (Nat.le_zero.mp hlen)
    subst ht
    exact hnil
  | succ N ih =>
    intro t hlen w hw
    by_cases ht0 : t = []
    · subst ht0; exact hnil w hw
    · have hpos : 0 < t.length := List.length_pos.mpr ht0
      have htake : t.take cs ≠ [] := by
        rw [Ne, List.take_eq_nil_iff]
        push_neg
        exact ⟨by omega, ht0⟩
      by_cases hle : t.length ≤ s
      · have hone : (t.length + s - 1) / s = 1 :=
          Nat.div_eq_of_lt_le (by omega) (by omega)
        rw [hone] at hw
        simp only [windowsN] at hw
        rcases List.mem_cons.mp hw with h | h
        · exact h ▸ htake
        · simp [windowsN] at h
      · push_neg at hle
        have hn : (t.length + s - 1) / s = (t.length - s + s - 1) / s + 1 := by
          have hm : t.length + s - 1 = (t.length - s + s - 1) + s := by omega
          rw [hm, Nat.add_div_right _ hs]
        rw [hn] at hw
        simp only [windowsN] at hw
        rcases List.mem_cons.mp hw with h | h
        · exact h ▸ htake
        · have hdl : (t.drop s).length = t.length - s := List.length_drop s t
          exact ih (t.drop s) (by omega) w (by rwa [hdl])

/-- **C2 (amended)**: for `overlap < chunk_size`, `chunk_text` succeeds, every
returned fragment is already stripped and nonempty (hence nonempty after
trimming), and — provided the text contains no whitespace characters, so that
stripping removes nothing and no all-whitespace window is discarded — the
fragments with their overlapping tails removed concatenate back to the
original text. -/
theorem chunk_text_fragments_spec (t : List Char) (cs ov : Nat) (hov : ov < cs) :
    ∃ chunks, chunk_text (some t) cs ov = .ok chunks ∧
      (∀ c ∈ chunks, pyStrip c = c ∧ c ≠ []) ∧
      ((∀ c ∈ t, c.isWhitespace = false) → reconstruct (cs - ov) chunks = t) := by
  by_cases ht : t = []
  · subst ht
    refine ⟨[], by simp [chunk_text], by simp, ?_⟩
    intro _
    simp [reconstruct, dropOverlapTails]
  · have hs : 0 < cs - ov := by omega
    have hsc : cs - ov ≤ cs := Nat.sub_le cs ov
    have hcs : 0 < cs := by omega
    refine ⟨_, chunk_text_eq_windows t cs ov ht hov, ?_, ?_⟩
    · intro c hc
      have hc' := List.mem_filter.mp hc
      obtain ⟨w, hw, hwc⟩ := List.mem_map.mp hc'.1
      constructor
      · rw [← hwc]; exact pyStrip_idem w
      · have : (!c.isEmpty) = true := hc'.2
        simpa [List.isEmpty_iff] using this
    · intro hw
      have hmap : (windowsN cs (cs - ov) ((t.length + (cs - ov) - 1) / (cs - ov)) t).map
          pyStrip = windowsN cs (cs - ov) ((t.length + (cs - ov) - 1) / (cs - ov)) t :=
        map_eq_self_of_fix _ _ (fun w hww => pyStrip_of_no_whitespace w
          (fun c hc => hw c (windowsN_chars_subset cs (cs - ov) _ t w hww c hc)))
      have hfil : ∀ w ∈ windowsN cs (cs - ov) ((t.length + (cs - ov) - 1) / (cs - ov)) t,
          (!w.isEmpty) = true := by
        intro w hww
        have := windowsN_ne_nil cs (cs - ov) hs hcs t.length t le_rfl w hww
        simpa [List.isEmpty_iff] using this
      rw [hmap, List.filter_eq_self.mpr hfil]
      exact windowsN_reconstruct cs (cs - ov) hs hsc t.length t le_rfl

/-- **C2 (counterexample)**: with text `"ab "`, `chunk_size = 2`, `overlap = 0`
(stride 2, so nothing is removed as overlapping tail), the trailing
all-whitespace window is discarded by `strip()`, so the fragments do not
concatenate back to the original text. -/
theorem chunk_text_reconstruct_cex :
    chunk_text (some ['a', 'b', ' ']) 2 0 = .ok [['a', 'b']] ∧
      reconstruct (2 - 0) [['a', 'b']] ≠ ['a', 'b', ' '] :=
  ⟨rfl, by decide⟩

/-- **C2 witness** for `chunk_text_fragments_spec` at `t = "abcd"`,
`chunk_size = 3`, `overlap = 1`. -/
theorem chunk_text_fragments_spec_witness :
    ∃ chunks, chunk_text (some ['a', 'b', 'c', 'd']) 3 1 = .ok chunks ∧
      (∀ c ∈ chunks, pyStrip c = c ∧ c ≠ []) ∧
      ((∀ c ∈ ['a', 'b', 'c', 'd'], c.isWhitespace = false) →
        reconstruct (3 - 1) chunks = ['a', 'b', 'c', 'd']) :=
  chunk_text_fragments_spec ['a', 'b', 'c', 'd'] 3 1 (by decide)

/-- **C5 (confirmed)**: missing (`NaN`/`None`) or empty input yields the empty
fragment list without an error, for every parameter pair — including the
degenerate ones, since the emptiness test precedes the loop. -/
theorem chunk_text_empty_or_missing (cs ov : Nat) :
    chunk_text none cs ov = .ok [] ∧ chunk_text (some []) cs ov = .ok [] :=
  ⟨rfl, by simp [chunk_text]⟩

/-- **C4 (amended)**: for nonempty text, `chunk_size = overlap` (stride zero)
makes `chunk_text` fail fast with Python's `range` step error, but
`chunk_size < overlap` (negative stride) makes `range` empty, so `chunk_text`
silently returns the empty list instead of raising. -/
theorem chunk_text_degenerate_params (t : List Char) (cs ov : Nat) (ht : t ≠ []) :
    (cs = ov → chunk_text (some t) cs ov = .error ()) ∧
    (cs < ov → chunk_text (some t) cs ov = .ok []) := by
  constructor
  · intro h
    simp [chunk_text, ht, h]
  · intro h
    have : ¬ cs = ov := Nat.ne_of_lt h
    simp [chunk_text, ht, this, h]

/-- **C4 witness** for `chunk_text_degenerate_params` at `t = "a"`. -/
theorem chunk_text_degenerate_params_witness :
    chunk_text (some ['a']) 2 2 = .error () ∧ chunk_text (some ['a']) 1 2 = .ok [] :=
  ⟨(chunk_text_degenerate_params ['a'] 2 2 (by decide)).1 rfl,
   (chunk_text_degenerate_params ['a'] 1 2 (by decide)).2 (by decide)⟩

/-- **C4 (counterexample)**: the nonempty text `"abc"` with
`chunk_size - overlap = 1 - 2 ≤ 0` silently yields `[]` — no error is raised,
contradicting the claim that every such pair fails fast. -/
theorem chunk_text_degenerate_params_cex :
    chunk_text (some ['a', 'b', 'c']) 1 2 = .ok [] := rfl

/-! ## Graph model: nodes, edges and the Cypher `MERGE`/`SET` semantics -/

/-- Properties written by the `SET` clause of `create_article_node`. -/
structure ArticleProps where
  title : String
  url : String
  published_date : String
deriving DecidableEq

/-- The `article_data` dictionary built per row in `build_graph_from_dataframe`
(`Graph_Build.py` lines 136-141). -/
structure ArticleData where
  article_id : String
  title : String
  url : String
  published_date : String
deriving DecidableEq

/-- Properties written by the `SET` clause of `create_content_nodes`. -/
structure ContentProps where
  chunk : List Char
  article_id : String
  title : String
  url : String
  published_date : String
  chunk_index : Nat
deriving DecidableEq

/-- The graph: nodes keyed by their unique-constraint key (`Article.article_id`,
`Content.content_id`, `Media.name`, `Category.name`) with their property
payloads, and the three relationship kinds as key-pair sets.  Lists keep
insertion order; `MERGE` never duplicates a key or an edge. -/
structure GraphState where
  articles : List (String × ArticleProps)
  contents : List (String × ContentProps)
  media : List String
  categories : List String
  hasChunk : List (String × String)
  published : List (String × String)
  belongsTo : List (String × String)
deriving DecidableEq

/-- The empty graph (after `clear_database`). -/
def emptyGraph : GraphState := ⟨[], [], [], [], [], [], []⟩

/-- Does a keyed node list contain the key? -/
def containsKey {α : Type} (l : List (String × α)) (k : String) : Bool :=
  l.any (fun p => p.1 = k)

/-- Cypher `MERGE (n {key: k}) SET n.props = v` on a keyed node list:
match-or-create on the key, then overwrite the properties. -/
def upsertNode {α : Type} (k : String) (v : α) (l : List (String × α)) :
    List (String × α) :=
  if containsKey l k then l.map (fun p => if p.1 = k then (k, v) else p)
  else l ++ [(k, v)]

/-- Cypher `MERGE` on a node identified by its whole key (`Media`, `Category`)
or on a relationship between two matched endpoints: create only if absent. -/
def mergeUnique {α : Type} [DecidableEq α] (e : α) (l : List α) : List α :=
  if e ∈ l then l else l ++ [e]

/-- `create_article_node` (`Graph_Build.py` lines 47-59). -/
def create_article_node (st : GraphState) (ad : ArticleData) : GraphState :=
  { st with articles :=
      upsertNode ad.article_id ⟨ad.title, ad.url, ad.published_date⟩ st.articles }

/-- The deterministic content id `f"{article_id}_chunk_{i}"`
(`Graph_Build.py` line 63). -/
def content_id (article_id : String) (i : Nat) : String :=
  article_id ++ "_chunk_" ++ toString i

/-- One iteration of the loop in `create_content_nodes`: `MERGE`+`SET` the
`Content` node, then `MATCH` both endpoints and `MERGE` the `HAS_CHUNK`
edge (a `MATCH` that finds nothing makes the `MERGE` a no-op). -/
def create_content_step (article_id : String) (ad : ArticleData)
    (st : GraphState) (ic : Nat × List Char) : GraphState :=
  let cid := content_id article_id ic.1
  let st1 := { st with
    contents := upsertNode cid
      ⟨ic.2, article_id, ad.title, ad.url, ad.published_date, ic.1⟩ st.contents }
  if containsKey st1.articles article_id = true ∧ containsKey st1.contents cid = true
  then { st1 with hasChunk := mergeUnique (article_id, cid) st1.hasChunk }
  else st1

/-- `create_content_nodes` (`Graph_Build.py` lines 61-90): `enumerate` over
the chunk list. -/
def create_content_nodes (st : GraphState) (article_id : String)
    (content_chunks : List (List Char)) (ad : ArticleData) : GraphState :=
  content_chunks.enum.foldl (create_content_step article_id ad) st

/-- `create_media_node_and_relationship` (`Graph_Build.py` lines 92-109);
`none` models a `NaN` source caught by `pd.isna`. -/
def create_media_node_and_relationship (st : GraphState) (article_id : String)
    (source : Option String) : GraphState :=
  match source with
  | none => st
  | some src =>
    if src = "" then st
    else
      let st1 := { st with media := mergeUnique src st.media }
      if containsKey st1.articles article_id = true ∧ src ∈ st1.media
      then { st1 with published := mergeUnique (src, article_id) st1.published }
      else st1

/-- `create_category_node_and_relationship` (`Graph_Build.py` lines 111-128). -/
def create_category_node_and_relationship (st : GraphState) (article_id : String)
    (category : Option String) : GraphState :=
  match category with
  | none => st
  | some cat =>
    if cat = "" then st
    else
      let st1 := { st with categories := mergeUnique cat st.categories }
      if containsKey st1.articles article_id = true ∧ cat ∈ st1.categories
      then { st1 with belongsTo := mergeUnique (article_id, cat) st1.belongsTo }
      else st1

/-- The per-article upsert pass: the four operations in the order they run for
one row of `build_graph_from_dataframe`, for a given chunk list. -/
def upsert_pass (st : GraphState) (ad : ArticleData) (chunks : List (List Char))
    (source category : Option String) : GraphState :=
  create_category_node_and_relationship
    (create_media_node_and_relationship
      (create_content_nodes (create_article_node st ad) ad.article_id chunks ad)
      ad.article_id source)
    ad.article_id category

/-! ### Generic lemmas about `upsertNode`, write sequences and `mergeUnique` -/

section KeyedWrites

variable {α : Type}

/-- Running a sequence of keyed writes left to right. -/
def applyWrites (ws : List (String × α)) (l : List (String × α)) :
    List (String × α) :=
  ws.foldl (fun acc w => upsertNode w.1 w.2 acc) l

/-- The last value a write sequence assigns to key `k` (default `d`). -/
def lastWriteD (ws : List (String × α)) (k : String) (d : α) : α :=
  ws.foldl (fun acc w => if w.1 = k then w.2 else acc) d

lemma containsKey_upsert_self (k : String) (v : α) (l : List (String × α)) :
    containsKey (upsertNode k v l) k = true := by
  unfold upsertNode
  by_cases h : containsKey l k = true
  · rw [if_pos h]
    obtain ⟨p, hp, hpk⟩ := List.any_eq_true.mp h
    refine List.any_eq_true.mpr ⟨(k, v), List.mem_map.mpr ⟨p, hp, ?_⟩, by simp⟩
    simp [of_decide_eq_true hpk]
  · rw [if_neg h]
    exact List.any_eq_true.mpr ⟨(k, v), List.mem_append_right _ (by simp), by simp⟩

lemma containsKey_upsert_of_containsKey (k' : String) (v : α) {l : List (String × α)}
    {k : String} (h : containsKey l k = true) :
    containsKey (upsertNode k' v l) k = true := by
  obtain ⟨p, hp, hpk⟩ := List.any_eq_true.mp h
  unfold upsertNode
  by_cases h' : containsKey l k' = true
  · rw [if_pos h']
    by_cases hpk' : p.1 = k'
    · refine List.any_eq_true.mpr ⟨(k', v), List.mem_map.mpr ⟨p, hp, by simp [hpk']⟩, ?_⟩
      have : p.1 = k := of_decide_eq_true hpk
      simp [← hpk', this]
    · exact List.any_eq_true.mpr
        ⟨p, List.mem_map.mpr ⟨p, hp, by simp [hpk']⟩, hpk⟩
  · rw [if_neg h']
    exact List.any_eq_true.mpr ⟨p, List.mem_append_left _ hp, hpk⟩

lemma containsKey_applyWrites_of_containsKey (ws : List (String × α)) :
    ∀ (l : List (String × α)) (k : String), containsKey l k = true →
      containsKey (applyWrites ws l) k = true := by
  induction ws with
  | nil => intro l k h; exact h
  | cons w ws ih =>
    intro l k h
    exact ih (upsertNode w.1 w.2 l) k (containsKey_upsert_of_containsKey w.1 w.2 h)

lemma containsKey_applyWrites (ws : List (String × α)) :
    ∀ (l : List (String × α)) (w : String × α), w ∈ ws →
      containsKey (applyWrites ws l) w.1 = true := by
  induction ws with
  | nil => intro l w hw; cases hw
  | cons w0 ws ih =>
    intro l w hw
    rcases List.mem_cons.mp hw with h | h
    · subst h
      exact containsKey_applyWrites_of_containsKey ws _ w.1
        (containsKey_upsert_self w.1 w.2 l)
    · exact ih (upsertNode w0.1 w0.2 l) w h

lemma upsert_value_at_key (k : String) (v : α) (l : List (String × α)) :
    ∀ p ∈ upsertNode k v l, p.1 = k → p.2 = v := by
  intro p hp hpk
  unfold upsertNode at hp
  by_cases h : containsKey l k = true
  · rw [if_pos h] at hp
    obtain ⟨q, _, hq⟩ := List.mem_map.mp hp
    by_cases hqk : q.1 = k
    · rw [if_pos hqk] at hq
      rw [← hq]
    · rw [if_neg hqk] at hq
      exact absurd (hq ▸ hpk) hqk
  · rw [if_neg h] at hp
    rcases List.mem_append.mp hp with hpl | hpr
    · exfalso
      have : ¬ (l.any (fun p => p.1 = k) = true) := h
      rw [List.any_eq_true] at this
      exact this ⟨p, hpl, decide_eq_true hpk⟩
    · simp only [List.mem_singleton] at hpr
      rw [hpr]

lemma upsert_other_key_preserves (k' : String) (v' : α) {l : List (String × α)}
    {k : String} {v : α} (hne : k' ≠ k)
    (h : ∀ p ∈ l, p.1 = k → p.2 = v) :
    ∀ p ∈ upsertNode k' v' l, p.1 = k → p.2 = v := by
  intro p hp hpk
  unfold upsertNode at hp
  by_cases hc : containsKey l k' = true
  · rw [if_pos hc] at hp
    obtain ⟨q, hql, hq⟩ := List.mem_map.mp hp
    by_cases hqk : q.1 = k'
    · rw [if_pos hqk] at hq
      rw [← hq] at hpk
      exact absurd hpk hne
    · rw [if_neg hqk] at hq
      exact h p (hq ▸ hql) hpk
  · rw [if_neg hc] at hp
    rcases List.mem_append.mp hp with hpl | hpr
    · exact h p hpl hpk
    · simp only [List.mem_singleton] at hpr
      rw [hpr] at hpk
      exact absurd hpk hne

lemma applyWrites_other_keys_preserve {ws : List (String × α)}
    {l : List (String × α)} {k : String} {v : α}
    (hnk : ∀ w ∈ ws, w.1 ≠ k) (h : ∀ p ∈ l, p.1 = k → p.2 = v) :
    ∀ p ∈ applyWrites ws l, p.1 = k → p.2 = v := by
  induction ws generalizing l with
  | nil => exact h
  | cons w ws ih =>
    exact ih (fun w' hw' => hnk w' (List.mem_cons_of_mem w hw'))
      (upsert_other_key_preserves w.1 w.2 (hnk w (List.mem_cons_self w ws)) h)

lemma lastWriteD_cons (w : String × α) (ws : List (String × α)) (k : String)
    (d : α) :
    lastWriteD (w :: ws) k d = lastWriteD ws k (if w.1 = k then w.2 else d) :=
  rfl

lemma lastWriteD_of_written {ws : List (String × α)} {k : String} :
    (∃ w ∈ ws, w.1 = k) → ∀ (d₁ d₂ : α),
      lastWriteD ws k d₁ = lastWriteD ws k d₂ := by
  induction ws with
  | nil => intro h; obtain ⟨w, hw, _⟩ := h; cases hw
  | cons w ws ih =>
    intro h d₁ d₂
    obtain ⟨w', hw', hw'k⟩ := h
    rcases List.mem_cons.mp hw' with he | hm
    · subst he
      simp only [lastWriteD_cons, if_pos hw'k]
    · rw [lastWriteD_cons, lastWriteD_cons]
      exact ih ⟨w', hm, hw'k⟩ _ _

lemma lastWriteD_of_not_written {ws : List (String × α)} {k : String}
    (h : ∀ w ∈ ws, w.1 ≠ k) (d : α) : lastWriteD ws k d = d := by
  induction ws with
  | nil => rfl
  | cons w ws ih =>
    rw [lastWriteD_cons, if_neg (h w (List.mem_cons_self w ws))]
    exact ih fun w' hw' => h w' (List.mem_cons_of_mem w hw')

lemma applyWrites_value_eq_lastWrite (ws : List (String × α)) :
    ∀ (l : List (String × α)), ∀ p ∈ applyWrites ws l,
      p.2 = lastWriteD ws p.1 p.2 := by
  induction ws with
  | nil => intro l p _; rfl
  | cons w ws ih =>
    intro l p hp
    have hp' : p ∈ applyWrites ws (upsertNode w.1 w.2 l) := hp
    have hih := ih (upsertNode w.1 w.2 l) p hp'
    rw [lastWriteD_cons]
    by_cases hwr : ∃ w' ∈ ws, w'.1 = p.1
    · rw [← lastWriteD_of_written hwr p.2 (if w.1 = p.1 then w.2 else p.2)]
      exact hih
    · push_neg at hwr
      have hd := lastWriteD_of_not_written hwr
      rw [hd]
      by_cases hwk : w.1 = p.1
      · rw [if_pos hwk]
        exact applyWrites_other_keys_preserve hwr
          (fun q hq hqk => upsert_value_at_key w.1 w.2 l q hq (hqk.trans hwk.symm) )
          p hp' rfl
      · rw [if_neg hwk]

lemma upsert_eq_map_of_containsKey {l : List (String × α)} {k : String}
    (v : α) (h : containsKey l k = true) :
    upsertNode k v l = l.map (fun p => if p.1 = k then (k, v) else p) := by
  unfold upsertNode
  rw [if_pos h]

lemma containsKey_map_setter (k : String) (v : α) (l : List (String × α))
    (k' : String) :
    containsKey (l.map (fun p => if p.1 = k then (k, v) else p)) k'
      = containsKey l k' := by
  unfold containsKey
  rw [List.any_map]
  congr 1
  funext p
  by_cases hpk : p.1 = k
  · simp [Function.comp, hpk]
  · simp [Function.comp, hpk]

lemma applyWrites_eq_map (ws : List (String × α)) :
    ∀ (l : List (String × α)), (∀ w ∈ ws, containsKey l w.1 = true) →
      applyWrites ws l = l.map (fun p => (p.1, lastWriteD ws p.1 p.2)) := by
  induction ws with
  | nil =>
    intro l _
    show l = l.map (fun p => (p.1, p.2))
    exact (map_eq_self_of_fix l _ fun p _ => rfl).symm
  | cons w ws ih =>
    intro l h
    show applyWrites ws (upsertNode w.1 w.2 l) = _
    rw [upsert_eq_map_of_containsKey w.2 (h w (List.mem_cons_self w ws))]
    rw [ih (l.map (fun p => if p.1 = w.1 then (w.1, w.2) else p))
      (fun w' hw' => by
        rw [containsKey_map_setter]
        exact h w' (List.mem_cons_of_mem w hw'))]
    rw [List.map_map]
    refine congrArg (fun f => l.map f) (funext fun p => ?_)
    show ((fun q => (q.1, lastWriteD ws q.1 q.2))
        (if p.1 = w.1 then (w.1, w.2) else p)) = _
    by_cases hpk : p.1 = w.1
    · rw [if_pos hpk, lastWriteD_cons, if_pos hpk.symm, hpk]
    · have hpk' : ¬ (w.1 = p.1) := fun he => hpk he.symm
      rw [if_neg hpk, lastWriteD_cons, if_neg hpk']

/-- Re-running the same write sequence is the identity: the keys are already
present and every entry already holds its last written value. -/
lemma applyWrites_applyWrites (ws : List (String × α)) (l : List (String × α)) :
    applyWrites ws (applyWrites ws l) = applyWrites ws l := by
  rw [applyWrites_eq_map ws (applyWrites ws l)
    (fun w hw => containsKey_applyWrites ws l w hw)]
  refine map_eq_self_of_fix _ _ fun p hp => ?_
  rw [← applyWrites_value_eq_lastWrite ws l p hp]

/-- `MERGE`+`SET` twice with the same key and value is once. -/
lemma upsert_upsert (k : String) (v : α) (l : List (String × α)) :
    upsertNode k v (upsertNode k v l) = upsertNode k v l :=
  applyWrites_applyWrites [(k, v)] l

end KeyedWrites

section MergeUnique

variable {α : Type} [DecidableEq α]

lemma mem_mergeUnique_self (e : α) (l : List α) : e ∈ mergeUnique e l := by
  unfold mergeUnique
  by_cases h : e ∈ l
  · rwa [if_pos h]
  · rw [if_neg h]
    exact List.mem_append_right _ (by simp)

lemma mem_mergeUnique_of_mem (e : α) {a : α} {l : List α} (h : a ∈ l) :
    a ∈ mergeUnique e l := by
  unfold mergeUnique
  by_cases he : e ∈ l
  · rwa [if_pos he]
  · rw [if_neg he]
    exact List.mem_append_left _ h

lemma mergeUnique_of_mem {e : α} {l : List α} (h : e ∈ l) :
    mergeUnique e l = l := if_pos h

/-- Folding `MERGE` over a list of candidate elements. -/
def mergeAll (es : List α) (l : List α) : List α :=
  es.foldl (fun acc e => mergeUnique e acc) l

lemma mem_mergeAll_of_mem (es : List α) :
    ∀ {a : α} {l : List α}, a ∈ l → a ∈ mergeAll es l := by
  induction es with
  | nil => intro a l h; exact h
  | cons e es ih => intro a l h; exact ih (mem_mergeUnique_of_mem e h)

lemma mem_mergeAll (es : List α) :
    ∀ (l : List α) {e : α}, e ∈ es → e ∈ mergeAll es l := by
  induction es with
  | nil => intro l _ he; cases he
  | cons e0 es ih =>
    intro l e he
    rcases List.mem_cons.mp he with h | h
    · subst h
      exact mem_mergeAll_of_mem es (mem_mergeUnique_self e l)
    · exact ih (mergeUnique e0 l) h

lemma mergeAll_of_subset : ∀ {es l : List α}, (∀ e ∈ es, e ∈ l) →
    mergeAll es l = l := by
  intro es
  induction es with
  | nil => intro l _; rfl
  | cons e es ih =>
    intro l h
    show mergeAll es (mergeUnique e l) = l
    rw [mergeUnique_of_mem (h e (List.mem_cons_self e es))]
    exact ih fun e' he' => h e' (List.mem_cons_of_mem e he')

lemma mergeAll_mergeAll (es : List α) (l : List α) :
    mergeAll es (mergeAll es l) = mergeAll es l :=
  mergeAll_of_subset fun _ he => mem_mergeAll es l he

lemma mergeUnique_mergeUnique (e : α) (l : List α) :
    mergeUnique e (mergeUnique e l) = mergeUnique e l :=
  mergeUnique_of_mem (mem_mergeUnique_self e l)

end MergeUnique

/-! ### Normal form of the per-article upsert pass -/

/-- The keyed `Content` writes performed by `create_content_nodes` over the
enumerated chunk list. -/
def contentWrites (article_id : String) (ad : ArticleData)
    (l : List (Nat × List Char)) : List (String × ContentProps) :=
  l.map (fun ic => (content_id article_id ic.1,
    ⟨ic.2, article_id, ad.title, ad.url, ad.published_date, ic.1⟩))

/-- The `HAS_CHUNK` edges merged by `create_content_nodes` over the enumerated
chunk list. -/
def contentEdges (article_id : String) (l : List (Nat × List Char)) :
    List (String × String) :=
  l.map (fun ic => (article_id, content_id article_id ic.1))

lemma content_fold_eq (article_id : String) (ad : ArticleData) :
    ∀ (l : List (Nat × List Char)) (st : GraphState),
      l.foldl (create_content_step article_id ad) st
        = { st with
            contents := applyWrites (contentWrites article_id ad l) st.contents,
            hasChunk :=
              if containsKey st.articles article_id = true
              then mergeAll (contentEdges article_id l) st.hasChunk
              else st.hasChunk } := by
  intro l
  induction l with
  | nil =>
    intro st
    show st = _
    cases st
    simp only [contentWrites, List.map_nil, contentEdges, applyWrites,
      List.foldl_nil, mergeAll, ite_self]
  | cons ic l ih =>
    intro st
    show l.foldl _ (create_content_step article_id ad st ic) = _
    rw [ih (create_content_step article_id ad st ic)]
    simp only [create_content_step, containsKey_upsert_self, and_true]
    by_cases h : containsKey st.articles article_id = true
    · rw [if_pos h, if_pos h]
      rw [if_pos h]
      rfl
    · rw [if_neg h, if_neg h]
      rw [if_neg h]
      rfl

lemma create_content_nodes_eq (st : GraphState) (article_id : String)
    (chunks : List (List Char)) (ad : ArticleData) :
    create_content_nodes st article_id chunks ad
      = { st with
          contents := applyWrites (contentWrites article_id ad chunks.enum)
            st.contents,
          hasChunk :=
            if containsKey st.articles article_id = true
            then mergeAll (contentEdges article_id chunks.enum) st.hasChunk
            else st.hasChunk } :=
  content_fold_eq article_id ad chunks.enum st

lemma create_media_some_body (st : GraphState) (aid src : String) :
    create_media_node_and_relationship st aid (some src)
      = if src = "" then st
        else if containsKey st.articles aid = true ∧ src ∈ mergeUnique src st.media
        then { st with
               media := mergeUnique src st.media,
               published := mergeUnique (src, aid) st.published }
        else { st with media := mergeUnique src st.media } := rfl

lemma create_category_some_body (st : GraphState) (aid cat : String) :
    create_category_node_and_relationship st aid (some cat)
      = if cat = "" then st
        else if containsKey st.articles aid = true ∧ cat ∈ mergeUnique cat st.categories
        then { st with
               categories := mergeUnique cat st.categories,
               belongsTo := mergeUnique (aid, cat) st.belongsTo }
        else { st with categories := mergeUnique cat st.categories } := rfl

/-- Media node list after the media step (normal form; proof abbreviation). -/
def mediaAfter (m : List String) (source : Option String) : List String :=
  match source with
  | none => m
  | some src => if src = "" then m else mergeUnique src m

/-- `PUBLISHED` edges after the media step (normal form; proof abbreviation). -/
def publishedAfter (pub : List (String × String)) (aid : String)
    (source : Option String) : List (String × String) :=
  match source with
  | none => pub
  | some src => if src = "" then pub else mergeUnique (src, aid) pub

/-- Category node list after the category step (proof abbreviation). -/
def categoriesAfter (cs : List String) (category : Option String) : List String :=
  match category with
  | none => cs
  | some cat => if cat = "" then cs else mergeUnique cat cs

/-- `BELONGS_TO` edges after the category step (proof abbreviation). -/
def belongsToAfter (bel : List (String × String)) (aid : String)
    (category : Option String) : List (String × String) :=
  match category with
  | none => bel
  | some cat => if cat = "" then bel else mergeUnique (aid, cat) bel

lemma mediaAfter_idem (m : List String) (source : Option String) :
    mediaAfter (mediaAfter m source) source = mediaAfter m source := by
  match source with
  | none => rfl
  | some src =>
    by_cases hs : src = ""
    · simp [mediaAfter, hs]
    · simp only [mediaAfter, if_neg hs]
      exact mergeUnique_mergeUnique src m

lemma publishedAfter_idem (pub : List (String × String)) (aid : String)
    (source : Option String) :
    publishedAfter (publishedAfter pub aid source) aid source
      = publishedAfter pub aid source := by
  match source with
  | none => rfl
  | some src =>
    by_cases hs : src = ""
    · simp [publishedAfter, hs]
    · simp only [publishedAfter, if_neg hs]
      exact mergeUnique_mergeUnique (src, aid) pub

lemma categoriesAfter_idem (cs : List String) (category : Option String) :
    categoriesAfter (categoriesAfter cs category) category
      = categoriesAfter cs category := by
  match category with
  | none => rfl
  | some cat =>
    by_cases hc : cat = ""
    · simp [categoriesAfter, hc]
    · simp only [categoriesAfter, if_neg hc]
      exact mergeUnique_mergeUnique cat cs

lemma belongsToAfter_idem (bel : List (String × String)) (aid : String)
    (category : Option String) :
    belongsToAfter (belongsToAfter bel aid category) aid category
      = belongsToAfter bel aid category := by
  match category with
  | none => rfl
  | some cat =>
    by_cases hc : cat = ""
    · simp [belongsToAfter, hc]
    · simp only [belongsToAfter, if_neg hc]
      exact mergeUnique_mergeUnique (aid, cat) bel

lemma create_media_eq (st : GraphState) (aid : String) (source : Option String)
    (ha : containsKey st.articles aid = true) :
    create_media_node_and_relationship st aid source
      = { st with
          media := mediaAfter st.media source,
          published := publishedAfter st.published aid source } := by
  match source with
  | none => rfl
  | some src =>
    rw [create_media_some_body]
    simp only [mediaAfter, publishedAfter]
    by_cases hs : src = ""
    · rw [if_pos hs, if_pos hs, if_pos hs]
    · rw [if_neg hs, if_neg hs, if_neg hs,
        if_pos ⟨ha, mem_mergeUnique_self src st.media⟩]

lemma create_category_eq (st : GraphState) (aid : String)
    (category : Option String) (ha : containsKey st.articles aid = true) :
    create_category_node_and_relationship st aid category
      = { st with
          categories := categoriesAfter st.categories category,
          belongsTo := belongsToAfter st.belongsTo aid category } := by
  match category with
  | none => rfl
  | some cat =>
    rw [create_category_some_body]
    simp only [categoriesAfter, belongsToAfter]
    by_cases hc : cat = ""
    · rw [if_pos hc, if_pos hc, if_pos hc]
    · rw [if_neg hc, if_neg hc, if_neg hc,
        if_pos ⟨ha, mem_mergeUnique_self cat st.categories⟩]

/-- Closed form of the per-article upsert pass. -/
lemma upsert_pass_eq (st : GraphState) (ad : ArticleData)
    (chunks : List (List Char)) (source category : Option String) :
    upsert_pass st ad chunks source category
      = { articles := upsertNode ad.article_id
            ⟨ad.title, ad.url, ad.published_date⟩ st.articles,
          contents := applyWrites
            (contentWrites ad.article_id ad chunks.enum) st.contents,
          media := mediaAfter st.media source,
          categories := categoriesAfter st.categories category,
          hasChunk := mergeAll (contentEdges ad.article_id chunks.enum) st.hasChunk,
          published := publishedAfter st.published ad.article_id source,
          belongsTo := belongsToAfter st.belongsTo ad.article_id category } := by
  unfold upsert_pass
  have ha0 : containsKey (create_article_node st ad).articles ad.article_id = true :=
    containsKey_upsert_self _ _ _
  rw [create_content_nodes_eq _ _ _ _, if_pos ha0]
  rw [create_media_eq _ _ _ (containsKey_upsert_self _ _ _)]
  rw [create_category_eq _ _ _ (containsKey_upsert_self _ _ _)]
  rfl

/-- **C1 (confirmed)**: the per-article upsert pass is idempotent — for every
starting graph, article record, chunk list and source/category values, running
the four merge-based operations twice with identical inputs gives exactly the
state of running them once: nodes are merge-created on their unique keys with
`content_id` deterministic from `(article_id, chunk_index)`, and relationships
are merge-deduplicated. -/
theorem upsert_pass_idempotent (st : GraphState) (ad : ArticleData)
    (chunks : List (List Char)) (source category : Option String) :
    upsert_pass (upsert_pass st ad chunks source category) ad chunks
        source category
      = upsert_pass st ad chunks source category := by
  rw [upsert_pass_eq st, upsert_pass_eq]
  simp only [GraphState.mk.injEq]
  refine ⟨upsert_upsert _ _ _, applyWrites_applyWrites _ _,
    mediaAfter_idem _ _, categoriesAfter_idem _ _, mergeAll_mergeAll _ _,
    publishedAfter_idem _ _ _, belongsToAfter_idem _ _ _⟩

/-! ## The per-row ingest and Scenario A -/

/-- One DataFrame row as read by `build_graph_from_dataframe`: the four
`row.get(…, '')` string fields, plus the `content`, `source` and `category`
cells whose missing (`NaN`) values are `none`. -/
structure Row where
  article_id : String
  title : String
  url : String
  published_date : String
  content : Option (List Char)
  source : Option String
  category : Option String
deriving DecidableEq

/-- The media and category steps closing one row. -/
def ingest_row_rest (st : GraphState) (r : Row) : GraphState :=
  create_category_node_and_relationship
    (create_media_node_and_relationship st r.article_id r.source)
    r.article_id r.category

/-- The body of the per-row loop of `build_graph_from_dataframe`
(`Graph_Build.py` lines 133-158): article upsert, conditional chunking and
content upsert, then media and category upserts.  Returns the resulting state
with a failure flag; the one internal failure, `chunk_text`'s stride-zero
`ValueError`, aborts the row after the article write (the caught exception
leaves already committed writes in place). -/
def ingest_row (st : GraphState) (r : Row) (chunk_size overlap : Nat) :
    GraphState × Bool :=
  let ad : ArticleData := ⟨r.article_id, r.title, r.url, r.published_date⟩
  let st1 := create_article_node st ad
  match r.content with
  | none => (ingest_row_rest st1 r, false)
  | some c =>
    if c = [] then (ingest_row_rest st1 r, false)
    else
      match chunk_text (some c) chunk_size overlap with
      | .error _ => (st1, true)
      | .ok chunks =>
        if chunks = [] then (ingest_row_rest st1 r, false)
        else (ingest_row_rest
          (create_content_nodes st1 r.article_id chunks ad) r, false)

lemma content_id_ne_of_toString_ne (aid : String) {i j : Nat}
    (h : ¬ (toString i = toString j)) :
    ¬ (content_id aid i = content_id aid j) := by
  intro he
  apply h
  have hd := congrArg String.data he
  simp only [content_id, String.data_append] at hd
  rw [List.append_assoc, List.append_assoc] at hd
  exact String.ext (List.append_cancel_left (List.append_cancel_left hd))

lemma upsertNode_append_of_not_containsKey {α : Type} {l : List (String × α)}
    {k : String} (h : containsKey l k = false) (v : α) :
    upsertNode k v l = l ++ [(k, v)] := by
  unfold upsertNode
  rw [h]
  simp

lemma applyWrites_three_distinct {α : Type} (k0 k1 k2 : String) (v0 v1 v2 : α)
    (h01 : ¬ (k0 = k1)) (h02 : ¬ (k0 = k2)) (h12 : ¬ (k1 = k2)) :
    applyWrites [(k0, v0), (k1, v1), (k2, v2)] []
      = [(k0, v0), (k1, v1), (k2, v2)] := by
  show upsertNode k2 v2 (upsertNode k1 v1 (upsertNode k0 v0 [])) = _
  have e0 : upsertNode k0 v0 ([] : List (String × α)) = [(k0, v0)] := rfl
  rw [e0]
  have c1 : containsKey [(k0, v0)] k1 = false := by
    simp [containsKey, h01]
  rw [upsertNode_append_of_not_containsKey c1]
  have c2 : containsKey ([(k0, v0)] ++ [(k1, v1)]) k2 = false := by
    simp [containsKey, h02, h12]
  rw [upsertNode_append_of_not_containsKey c2]
  rfl

lemma mergeAll_three_distinct {α : Type} [DecidableEq α] (e0 e1 e2 : α)
    (h01 : ¬ (e0 = e1)) (h02 : ¬ (e0 = e2)) (h12 : ¬ (e1 = e2)) :
    mergeAll [e0, e1, e2] [] = [e0, e1, e2] := by
  show mergeUnique e2 (mergeUnique e1 (mergeUnique e0 [])) = _
  have m0 : mergeUnique e0 ([] : List α) = [e0] := by
    unfold mergeUnique
    simp
  rw [m0]
  have m1 : mergeUnique e1 [e0] = [e0, e1] := by
    unfold mergeUnique
    rw [if_neg]
    · rfl
    · simp
      exact fun h => h01 h.symm
  rw [m1]
  unfold mergeUnique
  rw [if_neg]
  · rfl
  · simp
    exact ⟨fun h => h02 h.symm, fun h => h12 h.symm⟩

lemma media_frame (st : GraphState) (aid : String) (source : Option String) :
    (create_media_node_and_relationship st aid source).contents = st.contents
    ∧ (create_media_node_and_relationship st aid source).hasChunk = st.hasChunk := by
  match source with
  | none => exact ⟨rfl, rfl⟩
  | some src =>
    rw [create_media_some_body]
    by_cases hs : src = ""
    · rw [if_pos hs]
      exact ⟨rfl, rfl⟩
    · rw [if_neg hs]
      by_cases hg : containsKey st.articles aid = true ∧ src ∈ mergeUnique src st.media
      · rw [if_pos hg]
        exact ⟨rfl, rfl⟩
      · rw [if_neg hg]
        exact ⟨rfl, rfl⟩

lemma category_frame (st : GraphState) (aid : String) (category : Option String) :
    (create_category_node_and_relationship st aid category).contents = st.contents
    ∧ (create_category_node_and_relationship st aid category).hasChunk
        = st.hasChunk := by
  match category with
  | none => exact ⟨rfl, rfl⟩
  | some cat =>
    rw [create_category_some_body]
    by_cases hc : cat = ""
    · rw [if_pos hc]
      exact ⟨rfl, rfl⟩
    · rw [if_neg hc]
      by_cases hg : containsKey st.articles aid = true ∧ cat ∈ mergeUnique cat st.categories
      · rw [if_pos hg]
        exact ⟨rfl, rfl⟩
      · rw [if_neg hg]
        exact ⟨rfl, rfl⟩

lemma ingest_row_rest_frame (st : GraphState) (r : Row) :
    (ingest_row_rest st r).contents = st.contents
    ∧ (ingest_row_rest st r).hasChunk = st.hasChunk := by
  unfold ingest_row_rest
  constructor
  · rw [(category_frame _ _ _).1, (media_frame _ _ _).1]
  · rw [(category_frame _ _ _).2, (media_frame _ _ _).2]

/-- **C3 (amended)**: ingesting into an empty graph one article whose body
text has length exactly 1200 and contains no whitespace, with
`chunk_size = 500` and `overlap = 50`, succeeds and produces exactly three
`Content` nodes with `chunk_index` 0, 1, 2 and `content_id`
`{article_id}_chunk_0..2`, each connected to its `Article` node by a
`HAS_CHUNK` edge. -/
theorem scenario_A (aid title url date : String) (src cat : Option String)
    (t : List Char) (hlen : t.length = 1200)
    (hw : ∀ c ∈ t, c.isWhitespace = false) :
    (ingest_row emptyGraph ⟨aid, title, url, date, some t, src, cat⟩ 500 50).2
      = false
    ∧ ((ingest_row emptyGraph
        ⟨aid, title, url, date, some t, src, cat⟩ 500 50).1.contents.map Prod.fst)
      = [content_id aid 0, content_id aid 1, content_id aid 2]
    ∧ ((ingest_row emptyGraph
        ⟨aid, title, url, date, some t, src, cat⟩ 500 50).1.contents.map
          (fun p => p.2.chunk_index))
      = [0, 1, 2]
    ∧ (ingest_row emptyGraph
        ⟨aid, title, url, date, some t, src, cat⟩ 500 50).1.hasChunk
      = [(aid, content_id aid 0), (aid, content_id aid 1),
         (aid, content_id aid 2)] := by
  have ht : t ≠ [] := by
    intro h
    rw [h] at hlen
    simp at hlen
  have hw0 : pyStrip (t.take 500) = t.take 500 :=
    pyStrip_of_no_whitespace _ (fun c hc => hw c (List.take_subset _ _ hc))
  have hw1 : pyStrip ((t.drop 450).take 500) = (t.drop 450).take 500 :=
    pyStrip_of_no_whitespace _ (fun c hc =>
      hw c (List.drop_subset _ _ (List.take_subset _ _ hc)))
  have hw2 : pyStrip (((t.drop 450).drop 450).take 500)
      = ((t.drop 450).drop 450).take 500 :=
    pyStrip_of_no_whitespace _ (fun c hc =>
      hw c (List.drop_subset _ _ (List.drop_subset _ _ (List.take_subset _ _ hc))))
  have hne0 : t.take 500 ≠ [] := by
    rw [Ne, List.take_eq_nil_iff]
    push_neg
    exact ⟨by omega, ht⟩
  have hne1 : (t.drop 450).take 500 ≠ [] := by
    rw [Ne, List.take_eq_nil_iff]
    push_neg
    refine ⟨by omega, ?_⟩
    rw [Ne, List.drop_eq_nil_iff, hlen]
    omega
  have hne2 : ((t.drop 450).drop 450).take 500 ≠ [] := by
    rw [Ne, List.take_eq_nil_iff]
    push_neg
    refine ⟨by omega, ?_⟩
    rw [Ne, List.drop_eq_nil_iff, List.length_drop, hlen]
    omega
  have hchunks : chunk_text (some t) 500 50
      = .ok [t.take 500, (t.drop 450).take 500,
             ((t.drop 450).drop 450).take 500] := by
    rw [chunk_text_eq_windows t 500 50 ht (by omega)]
    congr 1
    have hn3 : (t.length + (500 - 50) - 1) / (500 - 50) = 3 := by
      rw [hlen]
    rw [hn3]
    have hfil : ∀ w ∈ [t.take 500, (t.drop 450).take 500,
        ((t.drop 450).drop 450).take 500], (!w.isEmpty) = true := by
      intro w hwm
      simp only [List.mem_cons, List.not_mem_nil, or_false] at hwm
      rcases hwm with h | h | h <;>
        simp [h, List.isEmpty_eq_false, hne0, hne1, hne2, hlen]
    calc ((windowsN 500 (500 - 50) 3 t).map pyStrip).filter (fun c => !c.isEmpty)
        = ([t.take 500, (t.drop 450).take 500,
            ((t.drop 450).drop 450).take 500].map pyStrip).filter
            (fun c => !c.isEmpty) := rfl
      _ = [t.take 500, (t.drop 450).take 500,
            ((t.drop 450).drop 450).take 500].filter (fun c => !c.isEmpty) := by
            rw [List.map_cons, List.map_cons, List.map_cons, List.map_nil,
              hw0, hw1, hw2]
      _ = [t.take 500, (t.drop 450).take 500,
            ((t.drop 450).drop 450).take 500] := List.filter_eq_self.mpr hfil
  have h01 : ¬ (content_id aid 0 = content_id aid 1) :=
    content_id_ne_of_toString_ne aid (by decide)
  have h02 : ¬ (content_id aid 0 = content_id aid 2) :=
    content_id_ne_of_toString_ne aid (by decide)
  have h12 : ¬ (content_id aid 1 = content_id aid 2) :=
    content_id_ne_of_toString_ne aid (by decide)
  have hrow : ingest_row emptyGraph ⟨aid, title, url, date, some t, src, cat⟩ 500 50
      = (ingest_row_rest
          (create_content_nodes
            (create_article_node emptyGraph ⟨aid, title, url, date⟩) aid
            [t.take 500, (t.drop 450).take 500, ((t.drop 450).drop 450).take 500]
            ⟨aid, title, url, date⟩)
          ⟨aid, title, url, date, some t, src, cat⟩, false) := by
    simp only [ingest_row, hchunks, if_neg ht]
    simp
  have hA : create_article_node emptyGraph ⟨aid, title, url, date⟩
      = (⟨[(aid, ⟨title, url, date⟩)], [], [], [], [], [], []⟩ : GraphState) := rfl
  have hak : containsKey [(aid, (⟨title, url, date⟩ : ArticleProps))] aid = true := by
    simp [containsKey]
  have hCN : create_content_nodes
      (⟨[(aid, ⟨title, url, date⟩)], [], [], [], [], [], []⟩ : GraphState) aid
      [t.take 500, (t.drop 450).take 500, ((t.drop 450).drop 450).take 500]
      ⟨aid, title, url, date⟩
      = (⟨[(aid, ⟨title, url, date⟩)],
          [(content_id aid 0, ⟨t.take 500, aid, title, url, date, 0⟩),
           (content_id aid 1, ⟨(t.drop 450).take 500, aid, title, url, date, 1⟩),
           (content_id aid 2,
             ⟨((t.drop 450).drop 450).take 500, aid, title, url, date, 2⟩)],
          [], [],
          [(aid, content_id aid 0), (aid, content_id aid 1),
           (aid, content_id aid 2)],
          [], []⟩ : GraphState) := by
    rw [create_content_nodes_eq]
    dsimp only
    rw [if_pos hak]
    have hW : contentWrites aid ⟨aid, title, url, date⟩
        ([t.take 500, (t.drop 450).take 500,
          ((t.drop 450).drop 450).take 500].enum)
        = [(content_id aid 0, ⟨t.take 500, aid, title, url, date, 0⟩),
           (content_id aid 1, ⟨(t.drop 450).take 500, aid, title, url, date, 1⟩),
           (content_id aid 2,
             ⟨((t.drop 450).drop 450).take 500, aid, title, url, date, 2⟩)] := rfl
    have hE : contentEdges aid
        ([t.take 500, (t.drop 450).take 500,
          ((t.drop 450).drop 450).take 500].enum)
        = [(aid, content_id aid 0), (aid, content_id aid 1),
           (aid, content_id aid 2)] := rfl
    rw [hW, hE, applyWrites_three_distinct _ _ _ _ _ _ h01 h02 h12,
      mergeAll_three_distinct _ _ _
        (fun hp => h01 (congrArg Prod.snd hp))
        (fun hp => h02 (congrArg Prod.snd hp))
        (fun hp => h12 (congrArg Prod.snd hp))]
  rw [hrow, hA, hCN]
  refine ⟨rfl, ?_, ?_, ?_⟩
  · rw [(ingest_row_rest_frame _ _).1]
    rfl
  · rw [(ingest_row_rest_frame _ _).1]
    rfl
  · rw [(ingest_row_rest_frame _ _).2]

set_option maxRecDepth 100000

/-- **C3 (counterexample)**: an article whose 1200-character body is entirely
whitespace yields zero content fragments (every window is discarded by
`strip()`), not three. -/
theorem scenario_A_cex :
    (ingest_row emptyGraph
      ⟨"A", "", "", "", some (List.replicate 1200 ' '), none, none⟩
      500 50).1.contents = []
    ∧ (ingest_row emptyGraph
      ⟨"A", "", "", "", some (List.replicate 1200 ' '), none, none⟩
      500 50).2 = false := ⟨rfl, rfl⟩

/-- **C3 witness** for `scenario_A` at a whitespace-free 1200-character body. -/
theorem scenario_A_witness :
    (ingest_row emptyGraph
      ⟨"A", "ti", "u", "d", some (List.replicate 1200 'a'), none, none⟩ 500 50).2
      = false
    ∧ ((ingest_row emptyGraph
        ⟨"A", "ti", "u", "d", some (List.replicate 1200 'a'), none, none⟩
        500 50).1.contents.map Prod.fst)
      = [content_id "A" 0, content_id "A" 1, content_id "A" 2]
    ∧ ((ingest_row emptyGraph
        ⟨"A", "ti", "u", "d", some (List.replicate 1200 'a'), none, none⟩
        500 50).1.contents.map (fun p => p.2.chunk_index))
      = [0, 1, 2]
    ∧ (ingest_row emptyGraph
        ⟨"A", "ti", "u", "d", some (List.replicate 1200 'a'), none, none⟩
        500 50).1.hasChunk
      = [("A", content_id "A" 0), ("A", content_id "A" 1),
         ("A", content_id "A" 2)] :=
  scenario_A "A" "ti" "u" "d" none none (List.replicate 1200 'a')
    (by simp) (fun c hc => by rw [List.eq_of_mem_replicate hc]; decide)

/-! ## The batch ingest loop -/

/-- Observable output of `build_graph_from_dataframe`: the periodic progress
print (line 160-161), the caught-exception print (line 164), and — modelled
from the spec, which claims a final succeeded/skipped count that the source
never emits — a `finalReport` event. -/
inductive LogEvent
  | progress (done total : Nat)
  | rowError (idx : Nat)
  | finalReport (succeeded skipped : Nat)
deriving DecidableEq

/-- Is an event the final succeeded/skipped report claimed by the spec? -/
def isFinalReport : LogEvent → Bool
  | .finalReport _ _ => true
  | _ => false

/-- `build_graph_from_dataframe` (`Graph_Build.py` lines 130-165) over an
abstract per-row executor `step` standing for the `execute_write` calls of one
row (which may raise anywhere): `step` returns the state including whatever
writes committed plus a failure flag.  A failure is caught by the `except`
clause, logged with the row index, and the loop `continue`s; a successful row
prints progress when `(idx+1) % 10 == 0`.  Returns the final state and the
ordered log. -/
def build_graph_from_dataframe (step : GraphState → Row → GraphState × Bool)
    (st : GraphState) (rows : List Row) : GraphState × List LogEvent :=
  let total := rows.length
  let final := rows.foldl
    (fun (acc : GraphState × List LogEvent × Nat) r =>
      let res := step acc.1 r
      let log' := if res.2
        then acc.2.1 ++ [.rowError acc.2.2]
        else if (acc.2.2 + 1) % 10 = 0
          then acc.2.1 ++ [.progress (acc.2.2 + 1) total]
          else acc.2.1
      (res.1, log', acc.2.2 + 1))
    (st, [], 0)
  (final.1, final.2.1)

lemma build_fold_state (step : GraphState → Row → GraphState × Bool)
    (total : Nat) :
    ∀ (rows : List Row) (acc : GraphState × List LogEvent × Nat),
      (rows.foldl
        (fun (acc : GraphState × List LogEvent × Nat) r =>
          let res := step acc.1 r
          let log' := if res.2
            then acc.2.1 ++ [.rowError acc.2.2]
            else if (acc.2.2 + 1) % 10 = 0
              then acc.2.1 ++ [.progress (acc.2.2 + 1) total]
              else acc.2.1
          (res.1, log', acc.2.2 + 1)) acc).1
      = rows.foldl (fun s r => (step s r).1) acc.1 := by
  intro rows
  induction rows with
  | nil => intro acc; rfl
  | cons r rows ih => intro acc; exact ih _

lemma build_fold_log (step : GraphState → Row → GraphState × Bool)
    (total : Nat) :
    ∀ (rows : List Row) (acc : GraphState × List LogEvent × Nat),
      (∀ e ∈ acc.2.1, isFinalReport e = false) →
      ∀ e ∈ (rows.foldl
        (fun (acc : GraphState × List LogEvent × Nat) r =>
          let res := step acc.1 r
          let log' := if res.2
            then acc.2.1 ++ [.rowError acc.2.2]
            else if (acc.2.2 + 1) % 10 = 0
              then acc.2.1 ++ [.progress (acc.2.2 + 1) total]
              else acc.2.1
          (res.1, log', acc.2.2 + 1)) acc).2.1,
        isFinalReport e = false := by
  intro rows
  induction rows with
  | nil => intro acc hacc; exact hacc
  | cons r rows ih =>
    intro acc hacc
    refine ih _ ?_
    intro e he
    dsimp only at he
    by_cases hf : (step acc.1 r).2
    · rw [if_pos hf] at he
      rcases List.mem_append.mp he with h | h
      · exact hacc e h
      · simp only [List.mem_singleton] at h
        rw [h]
        rfl
    · rw [if_neg hf] at he
      by_cases hp : (acc.2.2 + 1) % 10 = 0
      · rw [if_pos hp] at he
        rcases List.mem_append.mp he with h | h
        · exact hacc e h
        · simp only [List.mem_singleton] at h
          rw [h]
          rfl
      · rw [if_neg hp] at he
        exact hacc e he

/-- **C6 (amended)**: whatever the per-row executor does — including failing
on any subset of rows — the batch loop never aborts: the final state is the
fold of the executor over *all* rows (each failure is caught and the loop
continues), and the log holds only periodic progress prints and per-row error
prints — never a final succeeded/skipped count, which the source does not
report. -/
theorem build_runs_all_rows_no_final_report
    (step : GraphState → Row → GraphState × Bool) (st : GraphState)
    (rows : List Row) :
    (build_graph_from_dataframe step st rows).1
      = rows.foldl (fun s r => (step s r).1) st
    ∧ ∀ e ∈ (build_graph_from_dataframe step st rows).2,
        isFinalReport e = false := by
  constructor
  · exact build_fold_state step rows.length rows (st, [], 0)
  · exact build_fold_log step rows.length rows (st, [], 0) (by intro e he; cases he)

/-- A per-row executor that always raises (e.g. the database is down). -/
def alwaysFailStep : GraphState → Row → GraphState × Bool := fun s _ => (s, true)

/-- **C6 witness** for `build_runs_all_rows_no_final_report`: a concrete
one-row batch whose row fails; the loop still folds over the row, and the
logged event is not a final report. -/
theorem build_runs_all_rows_no_final_report_witness :
    (build_graph_from_dataframe alwaysFailStep emptyGraph
      [⟨"B", "", "", "", none, none, none⟩]).1
      = [(⟨"B", "", "", "", none, none, none⟩ : Row)].foldl
          (fun s r => (alwaysFailStep s r).1) emptyGraph
    ∧ isFinalReport (.rowError 0) = false :=
  ⟨(build_runs_all_rows_no_final_report alwaysFailStep emptyGraph
      [⟨"B", "", "", "", none, none, none⟩]).1,
   (build_runs_all_rows_no_final_report alwaysFailStep emptyGraph
      [⟨"B", "", "", "", none, none, none⟩]).2 (.rowError 0) (by decide)⟩

/-- **C6 (counterexample)**: a one-row batch whose row fails produces the
complete log `[rowError 0]` — the loop continued and finished, but no final
count of succeeded and skipped rows is ever reported, contradicting the
claim's reporting clause. -/
theorem build_no_final_report_cex :
    (build_graph_from_dataframe alwaysFailStep emptyGraph
      [⟨"A", "", "", "", none, none, none⟩]).2 = [.rowError 0]
    ∧ ((build_graph_from_dataframe alwaysFailStep emptyGraph
      [⟨"A", "", "", "", none, none, none⟩]).2.any isFinalReport) = false :=
  ⟨rfl, rfl⟩

/-! ## Embedding backfill -/

/-- A `Content` node row as returned by the backfill query
(`elementId(c)`, `c.chunk`, and the `embedding` property, `none` when unset).
The embedding vector type `E` is abstract (the service returns opaque
vectors). -/
structure ContentRecord (E : Type) where
  id : Nat
  chunk : List Char
  embedding : Option E
deriving DecidableEq

/-- The embedding-backfill loop of `initialize_graphrag`
(`Tools_Retriever.py` lines 73-97, identically `app.py` lines 107-133):
select the fragments with `embedding IS NULL`, embed each with the external
embedder, write the vector back by `elementId` match; a fragment whose
embedding call raises is logged and skipped, the loop continues. -/
def backfill_embeddings {E : Type} (embed : List Char → Except Unit E)
    (contents : List (ContentRecord E)) : List (ContentRecord E) :=
  let records := contents.filter (fun c => c.embedding.isNone)
  records.foldl
    (fun cs r =>
      match embed r.chunk with
      | .ok v => cs.map (fun c =>
          if c.id = r.id then { c with embedding := some v } else c)
      | .error _ => cs)
    contents

lemma backfill_aux {E : Type} (embed : List Char → Except Unit E) :
    ∀ (records : List (ContentRecord E)) (cs : List (ContentRecord E)),
      (∀ r ∈ records, ∃ v, embed r.chunk = .ok v) →
      (∀ c ∈ cs, c.embedding.isSome = true ∨ c.id ∈ records.map ContentRecord.id) →
      ∀ c ∈ records.foldl
        (fun cs r =>
          match embed r.chunk with
          | .ok v => cs.map (fun c =>
              if c.id = r.id then { c with embedding := some v } else c)
          | .error _ => cs)
        cs, c.embedding.isSome = true := by
  intro records
  induction records with
  | nil =>
    intro cs _ hinv c hc
    rcases hinv c hc with h | h
    · exact h
    · simp at h
  | cons r records ih =>
    intro cs hok hinv
    obtain ⟨v, hv⟩ := hok r (List.mem_cons_self r records)
    simp only [List.foldl_cons]
    rw [hv]
    refine ih _ (fun r' hr' => hok r' (List.mem_cons_of_mem r hr')) ?_
    intro c' hc'
    obtain ⟨c, hc, hcc⟩ := List.mem_map.mp hc'
    by_cases hid : c.id = r.id
    · left
      rw [← hcc, if_pos hid]
      rfl
    · rw [← hcc, if_neg hid]
      rcases hinv c hc with h | h
      · exact Or.inl h
      · right
        simp only [List.map_cons, List.mem_cons] at h
        rcases h with h | h
        · exact absurd h hid
        · exact h

/-- **C7 (confirmed)**: if the embedder succeeds on every fragment the
backfill pass selected (all those whose embedding is unset), then after the
pass no `Content` node has a null embedding: previously embedded fragments
keep theirs, and every selected fragment gets the produced vector written
back by id. -/
theorem backfill_no_null_embeddings {E : Type}
    (embed : List Char → Except Unit E) (contents : List (ContentRecord E))
    (hok : ∀ r ∈ contents.filter (fun c => c.embedding.isNone),
      ∃ v, embed r.chunk = .ok v) :
    ∀ c ∈ backfill_embeddings embed contents, c.embedding.isSome = true := by
  refine backfill_aux embed _ contents hok ?_
  intro c hc
  by_cases h : c.embedding.isSome = true
  · exact Or.inl h
  · right
    have hnone : c.embedding.isNone = true := by
      cases hemb : c.embedding with
      | none => rfl
      | some v => rw [hemb] at h; simp at h
    exact List.mem_map.mpr
      ⟨c, List.mem_filter.mpr ⟨hc, hnone⟩, rfl⟩

/-- **C7 witness** for `backfill_no_null_embeddings`: with one unembedded and
one embedded fragment and an embedder that always succeeds, the node that the
pass produced for id 0 has a non-null embedding. -/
theorem backfill_no_null_embeddings_witness :
    (ContentRecord.mk 0 ['a'] (some 7)).embedding.isSome = true :=
  backfill_no_null_embeddings (fun _ => Except.ok 7)
    [⟨0, ['a'], none⟩, ⟨1, ['b'], some 5⟩]
    (fun _ _ => ⟨7, rfl⟩)
    ⟨0, ['a'], some 7⟩ (by decide)

/-! ## The VectorCypher retrieval query -/

/-- The projected map collected into `related_articles`; each field holds the
corresponding property of `related_article`, and is null (`none`) exactly when
`related_article` itself is null on that row. -/
structure RelatedEntry where
  article_id : Option String
  title : Option String
  url : Option String
  published_date : Option String
deriving DecidableEq

/-- The all-null map that `collect` gathers from a row whose `OPTIONAL MATCH`
for `related_article` found no sibling: the map literal is built from a null
node, so its four values are null, but the map itself is not null and is
therefore collected. -/
def nullRelatedEntry : RelatedEntry := ⟨none, none, none, none⟩

/-- One row of the `retrieval_query` of the VectorCypher retriever
(`Tools_Retriever.py` lines 124-147; the `app.py` lines 157-182 variant adds
an analogous optional `media_name` column, which does not affect the fields
modelled here). -/
structure RetrievalRow (S : Type) where
  content_id : String
  chunk : List Char
  content_title : String
  article_id : String
  article_title : String
  article_url : String
  article_date : String
  category_name : Option String
  similarity_score : S
  related_articles : List RelatedEntry
deriving DecidableEq

/-- Cypher `OPTIONAL MATCH`: an empty match set keeps one row with a null
binding. -/
def optRows {α : Type} [DecidableEq α] (l : List α) : List (Option α) :=
  if l = [] then [none] else l.map some

/-- Cypher `collect(DISTINCT …)`: deduplication in first-occurrence order. -/
def collectDistinct {α : Type} [DecidableEq α] (l : List α) : List α :=
  l.foldl (fun acc x => if x ∈ acc then acc else acc ++ [x]) []

/-- The categories an article `BELONGS_TO`. -/
def categoriesOf (st : GraphState) (aid : String) : List String :=
  st.categories.filter (fun c => decide ((aid, c) ∈ st.belongsTo))

/-- The `related_article` matches: articles of the category other than the
seed's article (`WHERE related_article <> article`, keys being unique). -/
def siblingArticles (st : GraphState) (cat aid : String) :
    List (String × ArticleProps) :=
  st.articles.filter
    (fun p => decide ((p.1, cat) ∈ st.belongsTo) && !(decide (p.1 = aid)))

/-- The entries aggregated into `collect(DISTINCT {…})` for one
(article, optional category) row group. -/
def relatedEntriesRaw (st : GraphState) (aid : String)
    (catOpt : Option String) : List RelatedEntry :=
  match catOpt with
  | none => [nullRelatedEntry]
  | some cat =>
    (optRows (siblingArticles st cat aid)).map
      (fun o => match o with
        | none => nullRelatedEntry
        | some rp => ⟨some rp.1, some rp.2.title, some rp.2.url,
            some rp.2.published_date⟩)

/-- The rows the `retrieval_query` produces for one vector-index hit
`(content node, score)`: `MATCH` the owning article(s) through `HAS_CHUNK`,
`OPTIONAL MATCH` the category and the same-category siblings, and aggregate
the siblings as `collect(DISTINCT {…})[0..5]` while returning the score
unchanged as `similarity_score`. -/
def retrieval_query_rows {S : Type} (st : GraphState)
    (seed : (String × ContentProps) × S) : List (RetrievalRow S) :=
  (st.articles.filter (fun p => decide ((p.1, seed.1.1) ∈ st.hasChunk))).flatMap
    (fun a =>
      (optRows (categoriesOf st a.1)).map (fun catOpt =>
        { content_id := seed.1.1,
          chunk := seed.1.2.chunk,
          content_title := seed.1.2.title,
          article_id := a.1,
          article_title := a.2.title,
          article_url := a.2.url,
          article_date := a.2.published_date,
          category_name := catOpt,
          similarity_score := seed.2,
          related_articles :=
            (collectDistinct (relatedEntriesRaw st a.1 catOpt)).take 5 }))

/-- The VectorCypher result set: the retrieval query applied to every seed in
ranking order, without re-sorting. -/
def vector_cypher_results {S : Type} (st : GraphState)
    (seeds : List ((String × ContentProps) × S)) : List (RetrievalRow S) :=
  seeds.flatMap (retrieval_query_rows st)

lemma collectDistinct_fold_mem {α : Type} [DecidableEq α] :
    ∀ (l acc : List α) (x : α),
      x ∈ l.foldl (fun acc x => if x ∈ acc then acc else acc ++ [x]) acc →
      x ∈ acc ∨ x ∈ l := by
  intro l
  induction l with
  | nil => intro acc x hx; exact Or.inl hx
  | cons a l ih =>
    intro acc x hx
    rcases ih _ x hx with h | h
    · dsimp only at h
      by_cases ha : a ∈ acc
      · rw [if_pos ha] at h
        exact Or.inl h
      · rw [if_neg ha] at h
        rcases List.mem_append.mp h with h' | h'
        · exact Or.inl h'
        · simp only [List.mem_singleton] at h'
          exact Or.inr (h' ▸ List.mem_cons_self a l)
    · exact Or.inr (List.mem_cons_of_mem a h)

lemma collectDistinct_subset {α : Type} [DecidableEq α] (l : List α) :
    ∀ x ∈ collectDistinct l, x ∈ l := by
  intro x hx
  rcases collectDistinct_fold_mem l [] x hx with h | h
  · cases h
  · exact h

lemma mem_optRows {α : Type} [DecidableEq α] {l : List α} {o : Option α}
    (h : o ∈ optRows l) : o = none ∨ ∃ x ∈ l, o = some x := by
  unfold optRows at h
  by_cases hl : l = []
  · rw [if_pos hl] at h
    simp only [List.mem_singleton] at h
    exact Or.inl h
  · rw [if_neg hl] at h
    obtain ⟨x, hx, hxo⟩ := List.mem_map.mp h
    exact Or.inr ⟨x, hx, hxo.symm⟩

/-- **C8 (amended)**: for every seed fragment hit, each attached result row
carries the seed's score unchanged (the expansion does not re-rank) and at
most 5 `related_articles` entries, each of which is either a sibling Article
of the seed's article in the same Category (never the seed's own article) or
the single all-null placeholder map that `collect` produces when the optional
sibling (or category) match is empty. -/
theorem retrieval_related_articles_spec {S : Type} (st : GraphState)
    (seed : (String × ContentProps) × S) :
    ∀ row ∈ retrieval_query_rows st seed,
      row.similarity_score = seed.2
      ∧ row.content_id = seed.1.1
      ∧ row.related_articles.length ≤ 5
      ∧ ∀ e ∈ row.related_articles,
          e = nullRelatedEntry
          ∨ ∃ rp ∈ st.articles,
              e = RelatedEntry.mk (some rp.1) (some rp.2.title) (some rp.2.url)
                    (some rp.2.published_date)
              ∧ ¬ rp.1 = row.article_id
              ∧ ∃ cat, row.category_name = some cat
                ∧ (rp.1, cat) ∈ st.belongsTo
                ∧ (row.article_id, cat) ∈ st.belongsTo := by
  intro row hrow
  obtain ⟨a, ha, hrow2⟩ := List.mem_flatMap.mp hrow
  obtain ⟨catOpt, hcat, hroweq⟩ := List.mem_map.mp hrow2
  subst hroweq
  have hafil := List.mem_filter.mp ha
  refine ⟨rfl, rfl, List.length_take_le 5 _, ?_⟩
  intro e he
  have he2 : e ∈ relatedEntriesRaw st a.1 catOpt :=
    collectDistinct_subset _ e (List.take_subset 5 _ he)
  match catOpt, hcat with
  | none, _ =>
    simp only [relatedEntriesRaw, List.mem_singleton] at he2
    exact Or.inl he2
  | some cat, hcat =>
    simp only [relatedEntriesRaw] at he2
    obtain ⟨o, ho, hoe⟩ := List.mem_map.mp he2
    rcases mem_optRows ho with hnone | ⟨rp, hrp, hosome⟩
    · subst hnone
      exact Or.inl hoe.symm
    · subst hosome
      have hrp' := List.mem_filter.mp hrp
      have hcond := hrp'.2
      simp only [Bool.and_eq_true, decide_eq_true_eq, Bool.not_eq_true',
        decide_eq_false_iff_not] at hcond
      have hcatmem : cat ∈ categoriesOf st a.1 := by
        rcases mem_optRows hcat with h | ⟨c, hc, hcs⟩
        · cases h
        · cases hcs
          exact hc
      have hbel : (a.1, cat) ∈ st.belongsTo := by
        have := List.mem_filter.mp hcatmem
        simpa using this.2
      right
      exact ⟨rp, hrp'.1, hoe.symm, hcond.2, cat, rfl, hcond.1, hbel⟩

/-- A graph with one seed article in one category and one sibling article in
the same category. -/
def retrievalWitnessGraph : GraphState :=
  ⟨[("A", ⟨"", "", ""⟩), ("B", ⟨"tB", "uB", "dB"⟩)],
   [("A_chunk_0", ⟨['x'], "A", "", "", "", 0⟩)], [], ["C"],
   [("A", "A_chunk_0")], [], [("A", "C"), ("B", "C")]⟩

/-- **C8 witness** for `retrieval_related_articles_spec`: on
`retrievalWitnessGraph`, the single result row of the seed fragment satisfies
the stated properties. -/
theorem retrieval_related_articles_spec_witness :
    (RetrievalRow.mk "A_chunk_0" ['x'] "" "A" "" "" "" (some "C") (3 : Nat)
        [⟨some "B", some "tB", some "uB", some "dB"⟩]).similarity_score
      = ((("A_chunk_0", ⟨['x'], "A", "", "", "", 0⟩), (3 : Nat)) :
          (String × ContentProps) × Nat).2
    ∧ (RetrievalRow.mk "A_chunk_0" ['x'] "" "A" "" "" "" (some "C") (3 : Nat)
        [⟨some "B", some "tB", some "uB", some "dB"⟩]).content_id
      = "A_chunk_0"
    ∧ (RetrievalRow.mk "A_chunk_0" ['x'] "" "A" "" "" "" (some "C") (3 : Nat)
        [⟨some "B", some "tB", some "uB", some "dB"⟩]).related_articles.length
      ≤ 5
    ∧ ∀ e ∈ (RetrievalRow.mk "A_chunk_0" ['x'] "" "A" "" "" "" (some "C")
        (3 : Nat)
        [⟨some "B", some "tB", some "uB", some "dB"⟩]).related_articles,
        e = nullRelatedEntry
        ∨ ∃ rp ∈ retrievalWitnessGraph.articles,
            e = RelatedEntry.mk (some rp.1) (some rp.2.title) (some rp.2.url)
                  (some rp.2.published_date)
            ∧ ¬ rp.1 = (RetrievalRow.mk "A_chunk_0" ['x'] "" "A" "" "" ""
                (some "C") (3 : Nat)
                [⟨some "B", some "tB", some "uB", some "dB"⟩]).article_id
            ∧ ∃ cat, (RetrievalRow.mk "A_chunk_0" ['x'] "" "A" "" "" ""
                (some "C") (3 : Nat)
                [⟨some "B", some "tB", some "uB", some "dB"⟩]).category_name
                  = some cat
              ∧ (rp.1, cat) ∈ retrievalWitnessGraph.belongsTo
              ∧ ((RetrievalRow.mk "A_chunk_0" ['x'] "" "A" "" "" "" (some "C")
                  (3 : Nat)
                  [⟨some "B", some "tB", some "uB", some "dB"⟩]).article_id,
                 cat) ∈ retrievalWitnessGraph.belongsTo :=
  retrieval_related_articles_spec retrievalWitnessGraph
    (("A_chunk_0", ⟨['x'], "A", "", "", "", 0⟩), (3 : Nat))
    (RetrievalRow.mk "A_chunk_0" ['x'] "" "A" "" "" "" (some "C") (3 : Nat)
      [⟨some "B", some "tB", some "uB", some "dB"⟩])
    (by decide)

/-- A graph whose seed article is alone in its category. -/
def retrievalCexGraph : GraphState :=
  ⟨[("A", ⟨"", "", ""⟩)],
   [("A_chunk_0", ⟨['x'], "A", "", "", "", 0⟩)], [], ["C"],
   [("A", "A_chunk_0")], [], [("A", "C")]⟩

/-- **C8 (counterexample)**: when the seed's article has no same-category
sibling, `collect(DISTINCT {…})` still gathers the map built from the null
`related_article`, so `related_articles` is `[nullRelatedEntry]` — an entry
that is not a sibling Article, contradicting the claim that every entry is
one. -/
theorem retrieval_null_related_cex :
    retrieval_query_rows retrievalCexGraph
      (("A_chunk_0", ⟨['x'], "A", "", "", "", 0⟩), (1 : Nat))
      = [RetrievalRow.mk "A_chunk_0" ['x'] "" "A" "" "" "" (some "C") 1
          [nullRelatedEntry]]
    ∧ nullRelatedEntry.article_id = none := by
  refine ⟨by decide, rfl⟩

/-! ## The search handler's response assembly -/

/-- A parsed JSON value as produced by `json.loads`: the handler's code path
depends on whether the value is an object, an array, or anything else. -/
inductive Json
  | null
  | bool (b : Bool)
  | num (n : Int)
  | str (s : String)
  | arr (elems : List Json)
  | obj (fields : List (String × Json))

/-- Is the parsed value a JSON object (a Python dict)? -/
def Json.isObj : Json → Bool
  | .obj _ => true
  | _ => false

/-- One entry appended to the handler's flat `sources` list (`app.py` lines
375-384): `id` and `icon` are computed, every other value is taken verbatim
from the parsed JSON by `source_data.get` and need not be a string. -/
structure RespSourceRaw where
  id : Nat
  shortName : Json
  title : Json
  category : Json
  date : Json
  url : Json
  summary : Json
  icon : String

/-- The dict the `search` handler returns (`app.py` lines 392-395): the
section dicts — mutated in place with `sourceIds` set and `sources`
popped — and the flat source list.  (FastAPI later validates this against
the `QueryResponse` response model; that layer is outside the handler.) -/
structure SearchResult where
  sections : List Json
  sources : List RespSourceRaw

/-- The markdown code-fence stripping of `search` (`app.py` lines 338-350):
trim, and if the text starts with ```` ``` ````, drop the first line when it
starts with ```` ``` ````, drop the last line when it trims to ```` ``` ````,
re-join and trim again. -/
def strip_code_fences (answer : String) : String :=
  let t := answer.trim
  if t.startsWith "```" then
    let lines := t.splitOn "\n"
    let lines := match lines with
      | l0 :: rest => if l0.startsWith "```" then rest else lines
      | [] => lines
    let lines := if lines ≠ [] ∧ (lines.getLast?.getD "").trim = "```"
                 then lines.dropLast else lines
    (String.intercalate "\n" lines).trim
  else t

/-- Python `d.get(key, default)` on a parsed JSON object's fields
(`json.loads` gives a dict with unique keys, duplicates collapsing to the
last binding, so the last binding wins). -/
def objGetD (fields : List (String × Json)) (key : String) (dflt : Json) :
    Json :=
  match fields.reverse.find? (fun f => f.1 = key) with
  | some f => f.2
  | none => dflt

/-- Python `d[key] = v` on a dict: overwrite in place when the key exists,
else append the binding. -/
def setKey (fields : List (String × Json)) (key : String) (v : Json) :
    List (String × Json) :=
  upsertNode key v fields

/-- Python `d.pop(key, None)` on a dict: remove the binding. -/
def popKey (fields : List (String × Json)) (key : String) :
    List (String × Json) :=
  fields.filter (fun f => !(decide (f.1 = key)))

/-- `get_icon_for_category` applied to the raw JSON value of
`source_data.get("category", "")` (`app.py` line 383): inside the function,
`icons.get(category, "📰")` looks a string up in the table, treats `null`,
numbers and booleans as hashable non-keys giving the default glyph, and
raises `TypeError` on unhashable lists and dicts. -/
def iconForJson : Json → Except Unit String
  | .str s => .ok (get_icon_for_category s)
  | .arr _ => .error ()
  | .obj _ => .error ()
  | _ => .ok "📰"

/-- The inner source loop of `search` (`app.py` lines 373-386): give each
`source_data` the next id from the running counter, collecting the flat
source entries and the section's `sourceIds`; a `source_data` that is not a
dict raises `AttributeError` at `.get`. -/
def buildSources (sds : List Json) (startId : Nat) :
    Except Unit (List RespSourceRaw × List Nat × Nat) :=
  sds.foldl
    (fun acc sd =>
      match acc with
      | .error e => .error e
      | .ok (srcs, ids, n) =>
        match sd with
        | .obj fields =>
          match iconForJson (objGetD fields "category" (.str "")) with
          | .error e => .error e
          | .ok icon =>
            .ok (srcs ++ [⟨n, objGetD fields "media" (.str "unknown"),
                  objGetD fields "title" (.str ""),
                  objGetD fields "category" (.str "기타"),
                  objGetD fields "date" (.str ""),
                  objGetD fields "url" (.str ""),
                  objGetD fields "summary" (.str ""), icon⟩],
               ids ++ [n], n + 1)
        | _ => .error ())
    (.ok ([], [], startId))

/-- The outer section loop of `search` (`app.py` lines 372-390): every
section must be a dict (otherwise its `.get` raises `AttributeError`) whose
`sources` value must be an array (iterating any other value raises inside
the loop or is rejected by the response model — an HTTP 500 either way); the
section dict is then mutated: `sourceIds` set, `sources` popped. -/
def processSections (secs : List Json) (startId : Nat) :
    Except Unit (List Json × List RespSourceRaw × Nat) :=
  secs.foldl
    (fun acc sec =>
      match acc with
      | .error e => .error e
      | .ok (outSecs, srcs, n) =>
        match sec with
        | .obj fields =>
          match objGetD fields "sources" (.arr []) with
          | .arr sds =>
            match buildSources sds n with
            | .error e => .error e
            | .ok (newSrcs, ids, n2) =>
              .ok (outSecs ++ [.obj (popKey
                    (setKey fields "sourceIds"
                      (.arr (ids.map (fun i => Json.num (i : Int)))))
                    "sources")],
                 srcs ++ newSrcs, n2)
          | _ => .error ()
        | _ => .error ())
    (.ok ([], [], startId))

/-- The post-generation part of the `search` handler (`app.py` lines
338-395) over an abstract `json.loads` (`parse` returns `none` exactly when
`json.loads` raises): strip code fences; on a decode error substitute the
fixed fallback dict — one section titled `검색 결과` holding the *raw*
answer and an empty `sources` array; then read
`parsed_result.get("sections", [])` — raising `AttributeError` when the
parsed value is not a dict, and ending in an HTTP 500 likewise when the
`sections` value is not an array — and run the numbering loops.
`Except.error` models the handler's outer `except` turning any of these
exceptions into an `HTTPException` 500. -/
def search_postprocess (parse : String → Option Json) (answer : String) :
    Except Unit SearchResult :=
  let answer_text := strip_code_fences answer
  let parsed : Json :=
    match parse answer_text with
    | some j => j
    | none => .obj [("sections", .arr [.obj [("title", .str "검색 결과"),
        ("content", .str answer), ("sources", .arr [])]])]
  match parsed with
  | .obj fields =>
    match objGetD fields "sections" (.arr []) with
    | .arr secs =>
      match processSections secs 1 with
      | .error e => .error e
      | .ok (outSecs, srcs, _) => .ok ⟨outSecs, srcs⟩
    | _ => .error ()
  | _ => .error ()

lemma objGetD_of_no_key {fields : List (String × Json)} {key : String}
    (h : ∀ f ∈ fields, ¬ f.1 = key) (dflt : Json) :
    objGetD fields key dflt = dflt := by
  unfold objGetD
  have hfind : fields.reverse.find? (fun f => f.1 = key) = none := by
    rw [List.find?_eq_none]
    intro f hmem
    simpa using h f (List.mem_reverse.mp hmem)
  rw [hfind]

/-- **C9 (amended)**: the fallback fires exactly on `json.loads` failures.
When the decode fails, the handler does not raise: it returns exactly one
generic section titled `검색 결과` whose content is the raw answer text,
with empty `sourceIds` and an empty flat `sources` list.  But an answer that
decodes to valid JSON of the wrong shape is *not* recovered: a non-object
value makes `parsed_result.get` raise `AttributeError`, surfacing as an
HTTP 500, and an object without a `sections` key yields zero sections
rather than the generic fallback. -/
theorem search_parse_fallback (parse : String → Option Json)
    (answer : String) :
    (parse (strip_code_fences answer) = none →
      search_postprocess parse answer
        = .ok ⟨[Json.obj [("title", .str "검색 결과"),
            ("content", .str answer), ("sourceIds", .arr [])]], []⟩)
    ∧ (∀ j, parse (strip_code_fences answer) = some j → j.isObj = false →
        search_postprocess parse answer = .error ())
    ∧ (∀ fields, parse (strip_code_fences answer) = some (Json.obj fields) →
        (∀ f ∈ fields, ¬ f.1 = "sections") →
        search_postprocess parse answer = .ok ⟨[], []⟩) := by
  refine ⟨?_, ?_, ?_⟩
  · intro h
    simp only [search_postprocess, h]
    rfl
  · intro j hj hobj
    simp only [search_postprocess, hj]
    match j, hobj with
    | .null, _ => rfl
    | .bool b, _ => rfl
    | .num n, _ => rfl
    | .str s, _ => rfl
    | .arr xs, _ => rfl
    | .obj fields, hobj => exact Bool.noConfusion hobj
  · intro fields hf hnone
    simp only [search_postprocess, hf]
    rw [objGetD_of_no_key hnone]
    rfl

/-- **C9 witness** for `search_parse_fallback`: a decode failure on
`"hello"` produces the generic section; a decode to the JSON array `[1, 2]`
takes the HTTP 500 error path; a decode to an object without a `sections`
key yields zero sections. -/
theorem search_parse_fallback_witness :
    search_postprocess (fun _ => none) "hello"
      = .ok ⟨[Json.obj [("title", .str "검색 결과"),
          ("content", .str "hello"), ("sourceIds", .arr [])]], []⟩
    ∧ search_postprocess (fun _ => some (Json.arr [.num 1, .num 2])) "[1, 2]"
      = .error ()
    ∧ search_postprocess (fun _ => some (Json.obj [("foo", .num 1)])) "x"
      = .ok ⟨[], []⟩ :=
  ⟨(search_parse_fallback (fun _ => none) "hello").1 rfl,
   (search_parse_fallback (fun _ => some (Json.arr [.num 1, .num 2]))
     "[1, 2]").2.1 (Json.arr [.num 1, .num 2]) rfl rfl,
   (search_parse_fallback (fun _ => some (Json.obj [("foo", .num 1)]))
     "x").2.2 [("foo", .num 1)] rfl
     (by
       intro f hfm
       simp only [List.mem_singleton] at hfm
       rw [hfm]
       decide)⟩

/-- **C9 (counterexample)**: the answer `"[1, 2]"` is valid JSON that fails
the required structure, yet the handler does not fall back: `json.loads`
succeeds with a list, `parsed_result.get("sections", [])` then raises
`AttributeError`, and the outer `except` re-raises it as an HTTPException
500 — the handler raises from the parse failure instead of returning the
generic section with the raw answer. -/
theorem search_wrong_shape_raises_cex :
    search_postprocess (fun _ => some (Json.arr [Json.num 1, Json.num 2]))
      "[1, 2]" = .error () := rfl

/-- **C10 (confirmed)**: `get_icon_for_category` is a pure total lookup: the
six known categories map to six pairwise distinct glyphs, and every other
string maps to the default glyph `📰`. -/
theorem get_icon_for_category_spec :
    (∀ cat : String,
      cat ∉ ["정치", "경제", "사회", "생활/문화", "IT/과학", "세계"] →
        get_icon_for_category cat = "📰")
    ∧ (["정치", "경제", "사회", "생활/문화", "IT/과학", "세계"].map
        get_icon_for_category)
      = ["🏛️", "💼", "👥", "🎭", "💻", "🌍"]
    ∧ (["🏛️", "💼", "👥", "🎭", "💻", "🌍"] : List String).Pairwise (· ≠ ·) := by
  refine ⟨?_, by decide, by decide⟩
  intro cat h
  simp only [List.mem_cons, List.not_mem_nil, or_false, not_or] at h
  obtain ⟨h1, h2, h3, h4, h5, h6⟩ := h
  simp [get_icon_for_category, h1, h2, h3, h4, h5, h6]

/-- **C10 witness** for `get_icon_for_category_spec`: the empty string is not
a known category and maps to the default glyph. -/
theorem get_icon_for_category_spec_witness :
    get_icon_for_category "" = "📰" :=
  get_icon_for_category_spec.1 "" (by decide)

end NewsKG
